import Mathlib

/-!
Verification of the text-normalization and session-conversion pipeline of the
`engram-memory` repository (scripts/convert_export.py and
scripts/convert_opencode.py).

Texts are modelled as Lean `String`s; a Python `str` is a sequence of Unicode
code points, which matches `String.data : List Char`.  Line splitting and
joining on `"\n"` are modelled by `splitNl`/`joinNl` over `List Char`, exactly
mirroring Python's `text.split("\n")` and `"\n".join(...)`.
-/

set_option maxRecDepth 100000

/-- A line of text, as a list of Unicode code points. -/
abbrev Line := List Char

/-- Python `text.split("\n")` on the code-point list: splits on every
newline, keeping empty pieces (the result is always non-empty). -/
def splitNl : List Char → List Line
  | [] => [[]]
  | c :: cs =>
    match splitNl cs with
    | [] => [[c]]
    | r :: rs => if c = '\n' then [] :: r :: rs else (c :: r) :: rs

/-- Python `"\n".join(lines)` on code-point lists. -/
def joinNl : List Line → List Char
  | [] => []
  | [l] => l
  | l :: m :: ls => l ++ '\n' :: joinNl (m :: ls)

/-- Whether a prefix matches: `isPre p l` is true iff `p` is an initial
segment of `l` (Python `str.startswith`). -/
def isPre : List Char → List Char → Bool
  | [], _ => true
  | _ :: _, [] => false
  | p :: ps, c :: cs => (p == c) && isPre ps cs

/-- Substring containment (Python `sub in s`). -/
def hasSub (p : List Char) : List Char → Bool
  | [] => isPre p []
  | c :: cs => isPre p (c :: cs) || hasSub p cs

/-- Python `str.strip()`: whitespace removed from both ends. -/
def trimL (l : List Char) : List Char :=
  ((l.dropWhile Char.isWhitespace).reverse.dropWhile Char.isWhitespace).reverse

/-- The triple-backtick fence marker (the string `"```"`). -/
def fence3 : List Char := "```".data

/-- `line.strip().startswith("```")`: the test that opens/closes a fenced
code block in `_collapse_code_blocks`. -/
def isFence (l : Line) : Bool := isPre fence3 (trimL l)

/-- The code-indicator substrings of `_collapse_code_blocks`'s long-line
check: `["def ", "class ", "import ", "function ", "{"]`. -/
def indicators : List (List Char) :=
  ["def ", "class ", "import ", "function ", "\x7b"].map String.data

/-- Whether a line contains at least one code-indicator substring. -/
def hasInd (l : Line) : Bool := indicators.any (fun p => hasSub p l)

/-- The long-line placeholder `[file dump: long code output stripped]`. -/
def dumpLine : Line := "[file dump: long code output stripped]".data

/-- The long-line suppression applied to a single line outside fenced
blocks: lines over 500 code points containing a code indicator are replaced
by `dumpLine`; every other line passes through unchanged. -/
def longLineF (l : Line) : Line :=
  if 500 < l.length && hasInd l then dumpLine else l

/-- Decimal digit character (`str(n)` for `n < 10`). -/
def digitChar10 (n : Nat) : Char := "0123456789".data.getD n ' '

/-- Fuel-driven decimal rendering; `fuel` bounds the number of digits. -/
def natCharsGo : Nat → Nat → List Char
  | 0, _ => []
  | fuel + 1, n =>
    if n < 10 then [digitChar10 n]
    else natCharsGo fuel (n / 10) ++ [digitChar10 (n % 10)]

/-- Python `str(n)` for a natural number. -/
def natChars (n : Nat) : List Char := natCharsGo (n + 1) n

/-- The `first_line` label computed for a collapsed code block: the opening
fence's trimmed text with the leading ``` removed, else the trimmed first
inner line, else the literal `code`. -/
def labelOf (blk : List Line) : Line :=
  let fl := trimL (blk.headD [])
  let fl := if isPre fence3 fl then trimL (fl.drop 3) else fl
  if fl = [] then
    match blk with
    | _ :: second :: _ => trimL second
    | _ => "code".data
  else fl

/-- The synthetic replacement line `[code block: <label>... (<N> lines)]`
for a collapsed block. -/
def mkPH (blk : List Line) : Line :=
  "[code block: ".data ++ labelOf blk ++ "... (".data
    ++ natChars blk.length ++ " lines)]".data

/-- Emit one completed fenced block: blocks of more than 10 lines are
collapsed into the placeholder, shorter ones are kept verbatim. -/
def emitBlk (blk : List Line) : List Line :=
  if 10 < blk.length then [mkPH blk] else blk

/-- The line scanner of `_collapse_code_blocks`, as a state machine over the
line list.  State `none` is "outside a fenced block"; state `some acc` is
"inside a block, `acc` the lines collected so far (opening fence first)".
This is the same loop as the source's `while i < len(lines)` with the inner
fence-collecting loop unrolled into the `some` state. -/
def collapseGo : Option (List Line) → List Line → List Line
  | none, [] => []
  | none, l :: rest =>
    if isFence l then collapseGo (some [l]) rest
    else longLineF l :: collapseGo none rest
  | some acc, [] => emitBlk acc
  | some acc, l :: rest =>
    if isFence l then emitBlk (acc ++ [l]) ++ collapseGo none rest
    else collapseGo (some (acc ++ [l])) rest

/-- `_collapse_code_blocks` on a list of lines. -/
def collapseL (ls : List Line) : List Line := collapseGo none ls

/-- `_collapse_code_blocks` on a full text (split, rewrite, join).  This is
the whole text normalizer of both converters. -/
def collapseText (s : String) : String :=
  String.mk (joinNl (collapseL (splitNl s.data)))

/-- The lines the scanner treats as outside any fenced block (the lines
subject to long-line suppression).  The `Bool` state is "inside a block". -/
def outGo : Bool → List Line → List Line
  | _, [] => []
  | false, l :: rest => if isFence l then outGo true rest else l :: outGo false rest
  | true, l :: rest => if isFence l then outGo false rest else outGo true rest

/-- Lines of `ls` outside fenced blocks. -/
def outsideLines (ls : List Line) : List Line := outGo false ls

/-! ### Scanner decomposition lemmas -/

theorem collapseGo_some_append (inner : List Line)
    (h : ∀ x ∈ inner, isFence x = false) :
    ∀ (acc tail : List Line),
      collapseGo (some acc) (inner ++ tail) = collapseGo (some (acc ++ inner)) tail := by
  induction inner with
  | nil => intro acc tail; simp
  | cons l ls ih =>
    intro acc tail
    have hl : isFence l = false := h l (by simp)
    simp only [List.cons_append, collapseGo, hl, Bool.false_eq_true, if_false]
    exact (ih (fun x hx => h x (by simp [hx])) (acc ++ [l]) tail).trans (by simp)

theorem collapseL_closed (opn close : Line) (inner rest : List Line)
    (ho : isFence opn = true) (hi : ∀ x ∈ inner, isFence x = false)
    (hc : isFence close = true) :
    collapseL (opn :: (inner ++ close :: rest))
      = emitBlk (opn :: (inner ++ [close])) ++ collapseL rest := by
  unfold collapseL
  simp only [collapseGo, ho, if_true]
  rw [collapseGo_some_append inner hi [opn] (close :: rest)]
  simp [collapseGo, hc]

theorem collapseL_open (opn : Line) (inner : List Line)
    (ho : isFence opn = true) (hi : ∀ x ∈ inner, isFence x = false) :
    collapseL (opn :: inner) = emitBlk (opn :: inner) := by
  unfold collapseL
  simp only [collapseGo, ho, if_true]
  have h := collapseGo_some_append inner hi [opn] []
  simp only [List.append_nil] at h
  rw [h]
  simp [collapseGo]

theorem collapseL_outside (pre : List Line)
    (h : ∀ l ∈ pre, isFence l = false) (tail : List Line) :
    collapseL (pre ++ tail) = pre.map longLineF ++ collapseL tail := by
  induction pre with
  | nil => simp
  | cons l ls ih =>
    have hl : isFence l = false := h l (by simp)
    simp only [List.cons_append, collapseL, collapseGo, hl, Bool.false_eq_true,
      if_false, List.map_cons]
    exact congrArg _ (ih (fun x hx => h x (by simp [hx])))

theorem outGo_true_append (inner : List Line)
    (h : ∀ x ∈ inner, isFence x = false) :
    ∀ tail : List Line, outGo true (inner ++ tail) = outGo true tail := by
  induction inner with
  | nil => intro tail; simp
  | cons l ls ih =>
    intro tail
    have hl : isFence l = false := h l (by simp)
    simp only [List.cons_append, outGo, hl, Bool.false_eq_true, if_false]
    exact ih (fun x hx => h x (by simp [hx])) tail

theorem outGo_false_cons (l : Line) (rest : List Line) (hl : isFence l = false) :
    outGo false (l :: rest) = l :: outGo false rest := by
  simp [outGo, hl]

theorem outGo_false_closed (opn close : Line) (inner rest : List Line)
    (ho : isFence opn = true) (hi : ∀ x ∈ inner, isFence x = false)
    (hc : isFence close = true) :
    outGo false (opn :: (inner ++ close :: rest)) = outGo false rest := by
  simp only [outGo, ho, if_true]
  rw [outGo_true_append inner hi (close :: rest)]
  simp [outGo, hc]

theorem outGo_false_open (opn : Line) (inner : List Line)
    (ho : isFence opn = true) (hi : ∀ x ∈ inner, isFence x = false) :
    outGo false (opn :: inner) = [] := by
  simp only [outGo, ho, if_true]
  have h := outGo_true_append inner hi []
  simpa [outGo] using h

/-! ### C4 and C5: the two rewrites of the normalizer -/

/-- C4: a fenced code block spanning at most 10 lines (both fences counted)
is passed through verbatim, fence markers included; a block of 11 or more
lines — an unterminated fence counting all remaining lines — is replaced by
the single placeholder line `[code block: <label>... (<N> lines)]`, where
`N` counts the opening and closing fence lines. -/
theorem c4_block_collapse :
    (∀ (opn close : Line) (inner rest : List Line),
      isFence opn = true → (∀ x ∈ inner, isFence x = false) → isFence close = true →
      (((opn :: (inner ++ [close])).length ≤ 10 →
          collapseL (opn :: (inner ++ close :: rest))
            = (opn :: (inner ++ [close])) ++ collapseL rest)
        ∧ (10 < (opn :: (inner ++ [close])).length →
          collapseL (opn :: (inner ++ close :: rest))
            = mkPH (opn :: (inner ++ [close])) :: collapseL rest)))
    ∧ (∀ (opn : Line) (inner : List Line),
      isFence opn = true → (∀ x ∈ inner, isFence x = false) →
      10 < (opn :: inner).length →
      collapseL (opn :: inner) = [mkPH (opn :: inner)])
    ∧ (∀ blk : List Line,
      mkPH blk = "[code block: ".data ++ labelOf blk ++ "... (".data
        ++ natChars blk.length ++ " lines)]".data) := by
  refine ⟨?_, ?_, fun _ => rfl⟩
  · intro opn close inner rest ho hi hc
    rw [collapseL_closed opn close inner rest ho hi hc]
    constructor
    · intro hlen
      rw [emitBlk, if_neg (by omega)]
    · intro hlen
      rw [emitBlk, if_pos hlen]
      rfl
  · intro opn inner ho hi hlen
    rw [collapseL_open opn inner ho hi, emitBlk, if_pos hlen]

/-- Witness for C4: a 10-line fenced block is preserved verbatim, an
11-line block is collapsed to `[code block: py... (11 lines)]`. -/
theorem c4_block_collapse_witness :
    collapseL ("```py".data :: (List.replicate 8 "x".data ++ "```".data :: []))
        = ("```py".data :: (List.replicate 8 "x".data ++ ["```".data])) ++ collapseL []
    ∧ collapseL ("```py".data :: (List.replicate 9 "x".data ++ "```".data :: []))
        = mkPH ("```py".data :: (List.replicate 9 "x".data ++ ["```".data])) :: collapseL []
    ∧ mkPH ("```py".data :: (List.replicate 9 "x".data ++ ["```".data]))
        = "[code block: py... (11 lines)]".data := by
  refine ⟨?_, ?_, by decide⟩
  · exact (c4_block_collapse.1 "```py".data "```".data (List.replicate 8 "x".data) []
      (by decide) (by decide) (by decide)).1 (by decide)
  · exact (c4_block_collapse.1 "```py".data "```".data (List.replicate 9 "x".data) []
      (by decide) (by decide) (by decide)).2 (by decide)

/-- C5: a line outside any fenced block is rewritten by `longLineF`, which
replaces it with the literal `[file dump: long code output stripped]` iff
its length exceeds 500 code points and it contains a code-indicator
substring; otherwise the line passes through unchanged. -/
theorem c5_long_line_rule (pre tl : List Line)
    (hpre : ∀ l ∈ pre, isFence l = false) :
    collapseL (pre ++ tl) = pre.map longLineF ++ collapseL tl
    ∧ (∀ l : Line, 500 < l.length → hasInd l = true → longLineF l = dumpLine)
    ∧ (∀ l : Line, ¬(500 < l.length ∧ hasInd l = true) → longLineF l = l) := by
  refine ⟨collapseL_outside pre hpre tl, ?_, ?_⟩
  · intro l h1 h2
    rw [longLineF, if_pos (by simp [h1, h2])]
  · intro l h
    rw [longLineF, if_neg (by simpa [not_and, Decidable.imp_iff_not_or] using h)]

/-- The 501-code-point line `"import " ++ 494 · 'a'`. -/
def line501 : Line := "import ".data ++ List.replicate 494 'a'

/-- The same line truncated to 500 code points. -/
def line500 : Line := "import ".data ++ List.replicate 493 'a'

/-- Witness for C5: the 501-character line containing `"import "` is
replaced by the placeholder; the identical 500-character line is not. -/
theorem c5_long_line_rule_witness :
    collapseL [line501] = [dumpLine] ∧ collapseL [line500] = [line500] := by
  obtain ⟨hmap, hpos, hneg⟩ := c5_long_line_rule [line501] [] (by decide)
  obtain ⟨hmap', _, _⟩ := c5_long_line_rule [line500] [] (by decide)
  constructor
  · rw [show ([line501] : List Line) = [line501] ++ [] by simp] 
    rw [hmap]
    simp [collapseL, collapseGo, hpos line501 (by decide) (by decide)]
  · rw [show ([line500] : List Line) = [line500] ++ [] by simp]
    rw [hmap']
    simp [collapseL, collapseGo, hneg line500 (by decide)]

/-! ### Idempotence machinery for C1 -/

theorem collapseL_cons_nofence (l : Line) (rest : List Line)
    (h : isFence l = false) :
    collapseL (l :: rest) = longLineF l :: collapseL rest := by
  simp [collapseL, collapseGo, h]

theorem dropWhile_append_last (p : Char → Bool) (xs : List Char) (c : Char)
    (hc : p c = false) :
    (xs ++ [c]).dropWhile p = xs.dropWhile p ++ [c] := by
  induction xs with
  | nil => simp [List.dropWhile, hc]
  | cons x t ih => by_cases hx : p x <;> simp [List.dropWhile_cons, hx, ih]

theorem trimL_cons (c : Char) (t : List Char) (hc : c.isWhitespace = false) :
    ∃ t', trimL (c :: t) = c :: t' := by
  unfold trimL
  rw [List.dropWhile_cons, if_neg (by simp [hc])]
  rw [List.reverse_cons, dropWhile_append_last _ _ _ hc]
  exact ⟨(List.dropWhile Char.isWhitespace t.reverse).reverse, by simp⟩

theorem isFence_cons_eq_false (c : Char) (t : List Char)
    (hws : c.isWhitespace = false) (hne : (fence3.headD ' ' == c) = false) :
    isFence (c :: t) = false := by
  obtain ⟨t', ht⟩ := trimL_cons c t hws
  unfold isFence
  rw [ht]
  cases hf : fence3 with
  | nil => exact absurd hf (by decide)
  | cons b bs =>
    have hb : (b == c) = false := by
      have hhead : fence3.headD ' ' = b := by rw [hf]; rfl
      rw [← hhead]; exact hne
    simp [isPre, hb]

theorem isFence_mkPH (blk : List Line) : isFence (mkPH blk) = false := by
  have hshape : mkPH blk = '[' :: ("code block: ".data ++ labelOf blk
      ++ "... (".data ++ natChars blk.length ++ " lines)]".data) := by
    show "[code block: ".data ++ _ ++ _ ++ _ ++ _ = _
    rw [show "[code block: ".data = '[' :: "code block: ".data from rfl]
    simp
  rw [hshape]
  exact isFence_cons_eq_false _ _ (by decide) (by decide)

theorem longLineF_idem (l : Line) : longLineF (longLineF l) = longLineF l := by
  by_cases h : (500 < l.length && hasInd l) = true
  · have h1 : longLineF l = dumpLine := by rw [longLineF, if_pos h]
    rw [h1]; decide
  · have h1 : longLineF l = l := by rw [longLineF, if_neg h]
    rw [h1]; exact h1

theorem isFence_longLineF (l : Line) (h : isFence l = false) :
    isFence (longLineF l) = false := by
  by_cases hc : (500 < l.length && hasInd l) = true
  · have h1 : longLineF l = dumpLine := by rw [longLineF, if_pos hc]
    rw [h1]; decide
  · have h1 : longLineF l = l := by rw [longLineF, if_neg hc]
    rwa [h1]

theorem dropWhile_head_false {α : Type} (p : α → Bool) (l : List α) (y : α)
    (ys : List α) (h : l.dropWhile p = y :: ys) : p y = false := by
  induction l with
  | nil => simp at h
  | cons x t ih =>
    rw [List.dropWhile_cons] at h
    by_cases hx : p x
    · rw [if_pos hx] at h; exact ih h
    · rw [if_neg hx] at h
      cases h
      simpa using hx

theorem fence_decomp (rest : List Line) :
    (∀ x ∈ rest, isFence x = false) ∨
    ∃ inner close rest2, rest = inner ++ close :: rest2
      ∧ (∀ x ∈ inner, isFence x = false) ∧ isFence close = true := by
  cases hr : rest.dropWhile (fun s => !isFence s) with
  | nil =>
    left
    intro x hx
    have hall := List.dropWhile_eq_nil_iff.mp hr x hx
    simpa using hall
  | cons close rest2 =>
    right
    refine ⟨rest.takeWhile (fun s => !isFence s), close, rest2, ?_, ?_, ?_⟩
    · rw [← hr, List.takeWhile_append_dropWhile]
    · intro x hx
      have := List.mem_takeWhile_imp hx
      simpa using this
    · have := dropWhile_head_false _ rest close rest2 hr
      simpa using this

theorem collapse_idem_len : ∀ (n : Nat) (X : List Line),
    X.length ≤ n → (∀ l ∈ outsideLines (collapseL X), longLineF l = l) →
    collapseL (collapseL X) = collapseL X := by
  intro n
  induction n with
  | zero =>
    intro X hX _
    have hX0 : X = [] := by
      cases X with
      | nil => rfl
      | cons a t => simp at hX
    subst hX0; rfl
  | succ n ih =>
    intro X hX H
    cases X with
    | nil => rfl
    | cons l rest =>
      have hrest : rest.length ≤ n := by
        simp only [List.length_cons] at hX; omega
      by_cases hf : isFence l = true
      · rcases fence_decomp rest with hall | ⟨inner, close, rest2, hre, hinner, hclose⟩
        · rw [collapseL_open l rest hf hall] at H ⊢
          by_cases hlen : 10 < (l :: rest).length
          · simp only [emitBlk, if_pos hlen] at H ⊢
            have hph : longLineF (mkPH (l :: rest)) = mkPH (l :: rest) := by
              apply H
              unfold outsideLines
              rw [outGo_false_cons _ _ (isFence_mkPH _)]
              simp
            rw [collapseL_cons_nofence _ _ (isFence_mkPH _), hph]
            rfl
          · have hemit : emitBlk (l :: rest) = l :: rest := by
              unfold emitBlk
              rw [if_neg hlen]
            rw [hemit] at H ⊢
            rw [collapseL_open l rest hf hall, hemit]
        · have hrest2 : rest2.length ≤ n := by
            have hlen := congrArg List.length hre
            simp only [List.length_append, List.length_cons] at hlen
            omega
          rw [hre] at H ⊢
          rw [collapseL_closed l close inner rest2 hf hinner hclose] at H ⊢
          by_cases hlen : 10 < (l :: (inner ++ [close])).length
          · simp only [emitBlk, if_pos hlen] at H ⊢
            have hY : ([mkPH (l :: (inner ++ [close]))] ++ collapseL rest2)
                = mkPH (l :: (inner ++ [close])) :: collapseL rest2 := by simp
            rw [hY] at H ⊢
            have hph : longLineF (mkPH (l :: (inner ++ [close])))
                = mkPH (l :: (inner ++ [close])) := by
              apply H
              unfold outsideLines
              rw [outGo_false_cons _ _ (isFence_mkPH _)]
              simp
            have H2 : ∀ x ∈ outsideLines (collapseL rest2), longLineF x = x := by
              intro x hx
              apply H
              unfold outsideLines at hx ⊢
              rw [outGo_false_cons _ _ (isFence_mkPH _)]
              exact List.mem_cons_of_mem _ hx
            rw [collapseL_cons_nofence _ _ (isFence_mkPH _), hph,
              ih rest2 hrest2 H2]
          · simp only [emitBlk, if_neg hlen] at H ⊢
            have hshape : ((l :: (inner ++ [close])) ++ collapseL rest2)
                = l :: (inner ++ close :: collapseL rest2) := by simp
            rw [hshape] at H ⊢
            have H2 : ∀ x ∈ outsideLines (collapseL rest2), longLineF x = x := by
              intro x hx
              apply H
              unfold outsideLines at hx ⊢
              rw [outGo_false_closed l close inner _ hf hinner hclose]
              exact hx
            rw [collapseL_closed l close inner _ hf hinner hclose,
              ih rest2 hrest2 H2]
            simp only [emitBlk, if_neg hlen]
            exact hshape
      · have hf' : isFence l = false := by simpa using hf
        rw [collapseL_cons_nofence l rest hf'] at H ⊢
        have hl' : isFence (longLineF l) = false := isFence_longLineF l hf'
        have H2 : ∀ x ∈ outsideLines (collapseL rest), longLineF x = x := by
          intro x hx
          apply H
          unfold outsideLines at hx ⊢
          rw [outGo_false_cons _ _ hl']
          exact List.mem_cons_of_mem _ hx
        rw [collapseL_cons_nofence _ _ hl', longLineF_idem, ih rest hrest H2]

/-! ### Newline-freeness and split/join inversion -/

theorem mem_trimL (x : Char) (l : List Char) (h : x ∈ trimL l) : x ∈ l := by
  unfold trimL at h
  rw [List.mem_reverse] at h
  have h1 : x ∈ (l.dropWhile Char.isWhitespace).reverse :=
    (List.dropWhile_sublist _).subset h
  rw [List.mem_reverse] at h1
  exact (List.dropWhile_sublist _).subset h1

theorem digitChar10_mem (k : Nat) (hk : k < 10) :
    digitChar10 k ∈ "0123456789".data := by
  interval_cases k <;> decide

theorem natCharsGo_mem (fuel : Nat) : ∀ (n : Nat) (c : Char),
    c ∈ natCharsGo fuel n → c ∈ "0123456789".data := by
  induction fuel with
  | zero => intro n c h; simp [natCharsGo] at h
  | succ f ih =>
    intro n c h
    unfold natCharsGo at h
    by_cases hn : n < 10
    · rw [if_pos hn] at h
      simp only [List.mem_singleton] at h
      subst h
      exact digitChar10_mem n hn
    · rw [if_neg hn] at h
      rw [List.mem_append] at h
      rcases h with h | h
      · exact ih _ c h
      · simp only [List.mem_singleton] at h
        subst h
        exact digitChar10_mem _ (Nat.mod_lt _ (by omega))

theorem labelOf_no_newline (blk : List Line)
    (h : ∀ l ∈ blk, ∀ c ∈ l, c ≠ '\n') :
    ∀ c ∈ labelOf blk, c ≠ '\n' := by
  intro c hc
  have hhead : ∀ x ∈ trimL (blk.headD []), x ≠ '\n' := by
    intro x hx
    have hx' := mem_trimL x _ hx
    cases blk with
    | nil => simp at hx'
    | cons a t => exact h a (by simp) x hx'
  have hfl1 : ∀ x ∈ (if isPre fence3 (trimL (blk.headD []))
      then trimL ((trimL (blk.headD [])).drop 3)
      else trimL (blk.headD [])), x ≠ '\n' := by
    intro x hx
    by_cases hp : isPre fence3 (trimL (blk.headD [])) = true
    · rw [if_pos hp] at hx
      exact hhead x ((trimL (blk.headD [])).drop_subset 3 (mem_trimL x _ hx))
    · rw [if_neg hp] at hx
      exact hhead x hx
  have hcode : ∀ x ∈ "code".data, x ≠ '\n' := by decide
  unfold labelOf at hc
  dsimp only [] at hc
  by_cases hz : (if isPre fence3 (trimL (blk.headD []))
      then trimL ((trimL (blk.headD [])).drop 3)
      else trimL (blk.headD [])) = []
  · rw [if_pos hz] at hc
    cases blk with
    | nil => exact hcode c hc
    | cons a t =>
      cases t with
      | nil => exact hcode c hc
      | cons b t2 =>
        have hb := mem_trimL c b hc
        exact h b (by simp) c hb
  · rw [if_neg hz] at hc
    exact hfl1 c hc

theorem mkPH_no_newline (blk : List Line)
    (h : ∀ l ∈ blk, ∀ c ∈ l, c ≠ '\n') :
    ∀ c ∈ mkPH blk, c ≠ '\n' := by
  intro c hc
  have h1 : ∀ x ∈ "[code block: ".data, x ≠ '\n' := by decide
  have h2 : ∀ x ∈ "... (".data, x ≠ '\n' := by decide
  have h3 : ∀ x ∈ " lines)]".data, x ≠ '\n' := by decide
  have h4 : ∀ x ∈ "0123456789".data, x ≠ '\n' := by decide
  unfold mkPH at hc
  simp only [List.append_assoc, List.mem_append] at hc
  rcases hc with hc | hc | hc | hc | hc
  · exact h1 c hc
  · exact labelOf_no_newline blk h c hc
  · exact h2 c hc
  · exact h4 c (natCharsGo_mem _ _ _ hc)
  · exact h3 c hc

theorem emitBlk_no_newline (blk : List Line)
    (h : ∀ l ∈ blk, ∀ c ∈ l, c ≠ '\n') :
    ∀ l ∈ emitBlk blk, ∀ c ∈ l, c ≠ '\n' := by
  intro l hl
  unfold emitBlk at hl
  by_cases hlen : 10 < blk.length
  · rw [if_pos hlen] at hl
    simp only [List.mem_singleton] at hl
    subst hl
    exact mkPH_no_newline blk h
  · rw [if_neg hlen] at hl
    exact h l hl

theorem longLineF_no_newline (l : Line) (h : ∀ c ∈ l, c ≠ '\n') :
    ∀ c ∈ longLineF l, c ≠ '\n' := by
  intro c hc
  have hd : ∀ x ∈ dumpLine, x ≠ '\n' := by decide
  unfold longLineF at hc
  by_cases hs : (500 < l.length && hasInd l) = true
  · rw [if_pos hs] at hc
    exact hd c hc
  · rw [if_neg hs] at hc
    exact h c hc

theorem collapseGo_no_newline : ∀ (ls : List Line) (st : Option (List Line)),
    (∀ l ∈ ls, ∀ c ∈ l, c ≠ '\n') →
    (∀ acc, st = some acc → ∀ l ∈ acc, ∀ c ∈ l, c ≠ '\n') →
    ∀ l ∈ collapseGo st ls, ∀ c ∈ l, c ≠ '\n' := by
  intro ls
  induction ls with
  | nil =>
    intro st _ hst l hl
    cases st with
    | none => simp [collapseGo] at hl
    | some acc => exact emitBlk_no_newline acc (hst acc rfl) l hl
  | cons a rest ih =>
    intro st hls hst l hl
    have ha : ∀ c ∈ a, c ≠ '\n' := hls a (by simp)
    have hrest : ∀ l ∈ rest, ∀ c ∈ l, c ≠ '\n' :=
      fun l hl => hls l (by simp [hl])
    cases st with
    | none =>
      rw [show collapseGo none (a :: rest)
          = if isFence a then collapseGo (some [a]) rest
            else longLineF a :: collapseGo none rest from rfl] at hl
      by_cases hf : isFence a = true
      · rw [if_pos hf] at hl
        exact ih (some [a]) hrest
          (by intro acc hacc l' hl'; cases hacc; simp at hl'; subst hl'; exact ha) l hl
      · rw [if_neg hf] at hl
        rcases List.mem_cons.mp hl with h1 | h1
        · subst h1; exact longLineF_no_newline a ha
        · exact ih none hrest (by intro acc hacc; cases hacc) l h1
    | some acc =>
      have hacc : ∀ l ∈ acc, ∀ c ∈ l, c ≠ '\n' := hst acc rfl
      have hacca : ∀ l ∈ acc ++ [a], ∀ c ∈ l, c ≠ '\n' := by
        intro l' hl'
        rcases List.mem_append.mp hl' with h1 | h1
        · exact hacc l' h1
        · simp at h1; subst h1; exact ha
      rw [show collapseGo (some acc) (a :: rest)
          = if isFence a then emitBlk (acc ++ [a]) ++ collapseGo none rest
            else collapseGo (some (acc ++ [a])) rest from rfl] at hl
      by_cases hf : isFence a = true
      · rw [if_pos hf] at hl
        rcases List.mem_append.mp hl with h1 | h1
        · exact emitBlk_no_newline _ hacca l h1
        · exact ih none hrest (by intro acc' hacc'; cases hacc') l h1
      · rw [if_neg hf] at hl
        exact ih (some (acc ++ [a])) hrest
          (by intro acc' hacc'; cases hacc'; exact hacca) l hl

theorem splitNl_cons_eq (c : Char) (cs : List Char) (r : Line) (rs : List Line)
    (h : splitNl cs = r :: rs) :
    splitNl (c :: cs) = if c = '\n' then [] :: r :: rs else (c :: r) :: rs := by
  unfold splitNl
  rw [h]

theorem splitNl_ne_nil (l : List Char) : splitNl l ≠ [] := by
  cases l with
  | nil => simp [splitNl]
  | cons c cs =>
    unfold splitNl
    cases h : splitNl cs with
    | nil => simp
    | cons r rs => by_cases hc : c = '\n' <;> simp [hc]

theorem splitNl_no_newline : ∀ (cs : List Char), ∀ l ∈ splitNl cs, ∀ c ∈ l, c ≠ '\n' := by
  intro cs
  induction cs with
  | nil =>
    intro l hl x hx
    simp [splitNl] at hl
    subst hl
    simp at hx
  | cons c cs ih =>
    intro l hl x hx
    cases h : splitNl cs with
    | nil => exact absurd h (splitNl_ne_nil cs)
    | cons r rs =>
      rw [splitNl_cons_eq c cs r rs h] at hl
      by_cases hc : c = '\n'
      · rw [if_pos hc] at hl
        rcases List.mem_cons.mp hl with h1 | h1
        · subst h1; simp at hx
        · exact ih l (by rw [h]; exact h1) x hx
      · rw [if_neg hc] at hl
        rcases List.mem_cons.mp hl with h1 | h1
        · subst h1
          rcases List.mem_cons.mp hx with h2 | h2
          · subst h2; exact hc
          · exact ih r (by rw [h]; simp) x h2
        · exact ih l (by rw [h]; simp [h1]) x hx

theorem splitNl_single (l : List Char) (h : ∀ c ∈ l, c ≠ '\n') :
    splitNl l = [l] := by
  induction l with
  | nil => rfl
  | cons c cs ih =>
    have hc : c ≠ '\n' := h c (by simp)
    rw [splitNl_cons_eq c cs cs [] (ih (fun x hx => h x (by simp [hx])))]
    rw [if_neg hc]

theorem splitNl_append (l : List Char) (t : List Char)
    (h : ∀ c ∈ l, c ≠ '\n') :
    splitNl (l ++ '\n' :: t) = l :: splitNl t := by
  induction l with
  | nil =>
    simp only [List.nil_append]
    cases ht : splitNl t with
    | nil => exact absurd ht (splitNl_ne_nil t)
    | cons r rs =>
      rw [splitNl_cons_eq '\n' t r rs ht, if_pos rfl]
  | cons c cs ih =>
    have hc : c ≠ '\n' := h c (by simp)
    simp only [List.cons_append]
    rw [splitNl_cons_eq c (cs ++ '\n' :: t) cs (splitNl t)
      (ih (fun x hx => h x (by simp [hx])))]
    rw [if_neg hc]

theorem joinNl_split : ∀ (ls : List Line), ls ≠ [] →
    (∀ l ∈ ls, ∀ c ∈ l, c ≠ '\n') → splitNl (joinNl ls) = ls := by
  intro ls
  induction ls with
  | nil => intro hne _; exact absurd rfl hne
  | cons l rest ih =>
    intro _ h
    cases rest with
    | nil => exact splitNl_single l (fun c hc => h l (by simp) c hc)
    | cons m rs =>
      rw [show joinNl (l :: m :: rs) = l ++ '\n' :: joinNl (m :: rs) from rfl,
        splitNl_append l _ (fun c hc => h l (by simp) c hc),
        ih (by simp) (fun x hx => h x (by simp [hx]))]

theorem collapseL_ne_nil (X : List Line) (h : X ≠ []) : collapseL X ≠ [] := by
  cases X with
  | nil => exact absurd rfl h
  | cons l rest =>
    by_cases hf : isFence l = true
    · rcases fence_decomp rest with hall | ⟨inner, close, rest2, hre, hinner, hclose⟩
      · rw [collapseL_open l rest hf hall]
        unfold emitBlk
        by_cases hlen : 10 < (l :: rest).length
        · rw [if_pos hlen]; simp
        · rw [if_neg hlen]; simp
      · rw [hre, collapseL_closed l close inner rest2 hf hinner hclose]
        unfold emitBlk
        by_cases hlen : 10 < (l :: (inner ++ [close])).length
        · rw [if_pos hlen]; simp
        · rw [if_neg hlen]; simp
    · rw [collapseL_cons_nofence l rest (by simpa using hf)]
      simp

/-! ### C1: idempotence of the normalizer -/

/-- C1 (amended): normalization is idempotent on every input whose
normalized output has no line outside a fenced block that is eligible for
long-line suppression (over 500 code points with a code indicator).  The
unrestricted claim fails: a collapsed code-block placeholder can itself
exceed 500 characters and contain an indicator, and is then rewritten by a
second pass (see the counterexample). -/
theorem c1_normalize_idem (x : String)
    (h : ∀ l ∈ outsideLines (collapseL (splitNl x.data)), longLineF l = l) :
    collapseText (collapseText x) = collapseText x := by
  unfold collapseText
  rw [show (String.mk (joinNl (collapseL (splitNl x.data)))).data
      = joinNl (collapseL (splitNl x.data)) from rfl]
  rw [joinNl_split (collapseL (splitNl x.data))
    (collapseL_ne_nil _ (splitNl_ne_nil _))
    (collapseGo_no_newline (splitNl x.data) none (splitNl_no_newline x.data)
      (by intro acc hacc; cases hacc))]
  rw [collapse_idem_len (splitNl x.data).length (splitNl x.data) le_rfl h]

/-- A small concrete input for the idempotence witness. -/
def c1x : String := "hi\n```py\ncode\n```\ntail"

/-- Witness for C1: the amended idempotence theorem applied to a concrete
text containing a short fenced block. -/
theorem c1_normalize_idem_witness :
    collapseText (collapseText c1x) = collapseText c1x :=
  c1_normalize_idem c1x (by decide)

/-- The opening fence line of the counterexample: a fence whose language
tag is longer than 488 code points and contains `"import "`. -/
def c1BadLine : Line := "```import ".data ++ List.replicate 500 'a'

/-- The counterexample text: an 11-line unterminated fenced block whose
collapsed placeholder is 535 code points long and contains `"import "`. -/
def c1Bad : String := String.mk (joinNl (c1BadLine :: List.replicate 10 "x".data))

/-- Counterexample for C1 as stated: the normalizer is not idempotent on
`c1Bad` — the first pass collapses the block to a placeholder longer than
500 characters containing `"import "`, and the second pass replaces that
placeholder with the file-dump line. -/
theorem c1_counterexample : collapseText (collapseText c1Bad) ≠ collapseText c1Bad := by
  decide

/-! ### String helpers shared by both converters -/

/-- Python `str.strip()` on a `String`. -/
def strTrim (s : String) : String := String.mk (trimL s.data)

/-- Python `"\n".join(texts)`. -/
def strJoinNl (ls : List String) : String := String.mk (joinNl (ls.map String.data))

/-- Python `str(n)`. -/
def natStr (n : Nat) : String := String.mk (natChars n)

/-- Split on an arbitrary separator character (Python `s.split("-")` etc.,
for one-character separators). -/
def splitCh (sep : Char) : List Char → List (List Char)
  | [] => [[]]
  | c :: cs =>
    match splitCh sep cs with
    | [] => [[c]]
    | r :: rs => if c = sep then [] :: r :: rs else (c :: r) :: rs

/-- Python `s.replace("Z", "+00:00")` (single-character pattern). -/
def replaceZ : List Char → List Char
  | [] => []
  | c :: cs => (if c = 'Z' then "+00:00".data else [c]) ++ replaceZ cs

def digitVal (c : Char) : Option Nat :=
  if '0' ≤ c ∧ c ≤ '9' then some (c.toNat - '0'.toNat) else none

def parse2 (a b : Char) : Option Nat :=
  match digitVal a, digitVal b with
  | some x, some y => some (10 * x + y)
  | _, _ => none

def parse4 (a b c d : Char) : Option Nat :=
  match parse2 a b, parse2 c d with
  | some x, some y => some (100 * x + y)
  | _, _ => none

def isLeapYear (y : Nat) : Bool := y % 4 = 0 && (y % 100 ≠ 0 || y % 400 = 0)

def daysInMonth (y m : Nat) : Nat :=
  if m = 2 then (if isLeapYear y then 29 else 28)
  else if m = 4 ∨ m = 6 ∨ m = 9 ∨ m = 11 then 30
  else 31

/-- Validity of an ISO offset suffix `±HH:MM` or `±HH:MM:SS`. -/
def validOffset : List Char → Bool
  | sign :: h1 :: h2 :: c1 :: m1 :: m2 :: rest =>
    (sign = '+' || sign = '-') && c1 = ':' &&
    (match parse2 h1 h2, parse2 m1 m2 with
     | some hh, some mm =>
       hh ≤ 23 && mm ≤ 59 &&
       (match rest with
        | [] => true
        | c2 :: s1 :: s2 :: [] =>
          c2 = ':' && (match parse2 s1 s2 with
                       | some ss => ss ≤ 59
                       | none => false)
        | _ => false)
     | _, _ => false)
  | _ => false

/-- Validity of what may follow the seconds field: nothing, a fractional
part of 1–6 digits, or an offset; a fraction may be followed by an offset. -/
def validAfterSeconds : List Char → Bool
  | [] => true
  | c :: rest =>
    if c = '.' ∨ c = ',' then
      let ds := rest.takeWhile (fun d => (digitVal d).isSome)
      let tail' := rest.dropWhile (fun d => (digitVal d).isSome)
      1 ≤ ds.length && ds.length ≤ 6 && (tail'.isEmpty || validOffset tail')
    else validOffset (c :: rest)

/-- Validity of what may follow the minutes field. -/
def validAfterMinutes : List Char → Bool
  | [] => true
  | c :: s1 :: s2 :: rest =>
    if c = ':' then
      match parse2 s1 s2 with
      | some ss => ss ≤ 59 && validAfterSeconds rest
      | none => false
    else validOffset (c :: s1 :: s2 :: rest)
  | other => validOffset other

/-- The optional time part after the 10-character date: empty, or a
one-character separator followed by `HH:MM` and a valid remainder. -/
def parseTimeTail : List Char → Option (Nat × Nat)
  | [] => some (0, 0)
  | _ :: h1 :: h2 :: c1 :: m1 :: m2 :: rest =>
    if c1 = ':' then
      match parse2 h1 h2, parse2 m1 m2 with
      | some hh, some mi =>
        if hh ≤ 23 ∧ mi ≤ 59 ∧ validAfterMinutes rest = true then some (hh, mi)
        else none
      | _, _ => none
    else none
  | _ => none

/-- Modelled behavior of `datetime.fromisoformat` on the canonical ISO-8601
forms `YYYY-MM-DD[<sep>HH:MM[:SS[.ffffff]][±HH:MM[:SS]]]` produced by the
exporter: returns `(year, month, day, hour, minute)`, or `none` for strings
outside this grammar (source code treats a parse error via `except`). -/
def parseISO : List Char → Option (Nat × Nat × Nat × Nat × Nat)
  | y1 :: y2 :: y3 :: y4 :: da :: mo1 :: mo2 :: db :: dd1 :: dd2 :: rest =>
    if da = '-' ∧ db = '-' then
      match parse4 y1 y2 y3 y4, parse2 mo1 mo2, parse2 dd1 dd2 with
      | some y, some mo, some dd =>
        if 1 ≤ y ∧ 1 ≤ mo ∧ mo ≤ 12 ∧ 1 ≤ dd ∧ dd ≤ daysInMonth y mo then
          match parseTimeTail rest with
          | some (hh, mi) => some (y, mo, dd, hh, mi)
          | none => none
        else none
      | _, _, _ => none
    else none
  | _ => none

/-- Two-digit zero-padded decimal (strftime `%H`, `%M`, `%m`, `%d`). -/
def pad2 (n : Nat) : String := if n < 10 then "0" ++ natStr n else natStr n

/-- Four-digit zero-padded decimal (strftime `%Y`). -/
def pad4 (n : Nat) : String :=
  if n < 10 then "000" ++ natStr n
  else if n < 100 then "00" ++ natStr n
  else if n < 1000 then "0" ++ natStr n
  else natStr n

/-- `_format_timestamp` of convert_export.py: replace `Z` by `+00:00`,
parse with `fromisoformat`, print `%H:%M`; `"??:??"` on failure. -/
def fmtHMA (ts : String) : String :=
  match parseISO (replaceZ ts.data) with
  | some (_, _, _, hh, mi) => pad2 hh ++ ":" ++ pad2 mi
  | none => "??:??"

/-- `_get_date_from_timestamp` of convert_export.py (`%Y-%m-%d`,
`"unknown-date"` on failure). -/
def dateA (ts : String) : String :=
  match parseISO (replaceZ ts.data) with
  | some (y, mo, dd, _, _) => pad4 y ++ "-" ++ pad2 mo ++ "-" ++ pad2 dd
  | none => "unknown-date"

/-- Characters kept by the slug regex `[^a-z0-9]+` (after lowering). -/
def isSlugKeep (c : Char) : Bool := ('a' ≤ c && c ≤ 'z') || ('0' ≤ c && c ≤ '9')

/-- Collapse every maximal run of non-kept characters to one hyphen
(`re.sub(r"[^a-z0-9]+", "-", s)`); the `Bool` is "inside a replaced run". -/
def slugGo : Bool → List Char → List Char
  | _, [] => []
  | inRun, c :: cs =>
    if isSlugKeep c then c :: slugGo false cs
    else if inRun then slugGo true cs
    else '-' :: slugGo true cs

/-- `re.sub(r"[^a-z0-9]+", "-", s.lower())[:40].strip("-")` (ASCII
lowering, matching the titles/summaries this converter produces). -/
def slugify (s : String) : String :=
  String.mk ((((slugGo false (s.data.map Char.toLower)).take 40).dropWhile
    (fun c => c = '-')).reverse.dropWhile (fun c => c = '-') |>.reverse)

/-- Map `-` to `:` (Python `time_str.replace("-", ":")`). -/
def dashToColon (s : String) : String :=
  String.mk (s.data.map fun c => if c = '-' then ':' else c)

/-- Map `:` to `-` (Python `time_str.replace(":", "-")`). -/
def colonToDash (s : String) : String :=
  String.mk (s.data.map fun c => if c = ':' then '-' else c)

/-- Console events emitted by the converters (`print` calls), abstracting
the exact message text. -/
inductive LogEvent
  | warnNoMessages (path : String)
  | warnDuplicate (sid : String)
  | okWrite (filename : String) (count : Nat)
  | errWrite (filename : String)
deriving DecidableEq

/-- Result of converting one session: success flag, the written
`(filename, body)` if any, and the console events. -/
structure ConvResult where
  ok : Bool
  output : Option (String × String)
  logs : List LogEvent
deriving DecidableEq

/-! ### Format A (convert_export.py, Claude Code JSONL) -/

/-- A content block of a format-A message: a JSON object with its `type`
and `text` fields (absent fields are `none`), or a non-object value. -/
inductive ABlock
  | dict (type' : Option String) (textF : Option String)
  | nonDict
deriving DecidableEq

/-- The `message.content` value: a raw string, a block list, or any other
JSON value. -/
inductive AContent
  | str (s : String)
  | blocks (bs : List ABlock)
  | other
deriving DecidableEq

structure AMessage where
  role : Option String
  content : Option AContent
deriving DecidableEq

/-- One parsed JSONL record, with the fields the converter reads;
`isMeta` is the truthiness of the `isMeta` field. -/
structure ARecord where
  type' : Option String
  message : Option AMessage
  isMeta : Bool
  timestamp : Option String
  sessionId : Option String
  cwd : Option String
deriving DecidableEq

/-- `_is_command_message`: `re.search(r"<(local-)?command-", content)`,
i.e. the text contains `<command-` or `<local-command-`. -/
def isCommandMessage (s : String) : Bool :=
  hasSub "<command-".data s.data || hasSub "<local-command-".data s.data

/-- The block-list part of `_extract_text_blocks`: keep the `text` of every
object block whose `type` is `text` and which has a `text` key. -/
def extractTextBlocks (bs : List ABlock) : List String :=
  bs.filterMap fun b =>
    match b with
    | .dict (some t) (some tx) => if t = "text" then some tx else none
    | _ => none

/-- The non-conversational record types skipped by `_should_skip_message`. -/
def isSkippedType (t : Option String) : Bool :=
  t == some "queue-operation" || t == some "file-history-snapshot"
    || t == some "system" || t == some "summary"

/-- `_should_skip_message`: skip non-conversation types, records without a
`message` field, and records with a truthy `isMeta` flag. -/
def shouldSkipMessage (r : ARecord) : Bool :=
  isSkippedType r.type' || r.message.isNone || r.isMeta

/-- `_extract_user_message`: drop skipped records, non-user roles, command
messages, tool-result-only block lists, and messages with no text blocks;
otherwise join the text blocks with newlines and strip. -/
def extractUserMessage (r : ARecord) : Option String :=
  if shouldSkipMessage r then none
  else
    match r.message with
    | none => none
    | some m =>
      if m.role != some "user" then none
      else
        match m.content with
        | some (.str s) =>
          if isCommandMessage s then none else some (strTrim s)
        | some (.blocks bs) =>
          let hasToolResult := bs.any fun b =>
            match b with
            | .dict (some t) _ => t == "tool_result"
            | _ => false
          let hasText := bs.any fun b =>
            match b with
            | .dict (some t) _ => t == "text"
            | _ => false
          if hasToolResult && !hasText then none
          else
            let texts := extractTextBlocks bs
            if texts.isEmpty then none
            else some (strTrim (strJoinNl texts))
        | _ => none

/-- `_extract_assistant_message`: drop skipped records, non-assistant
roles, and non-list content; keep joined, stripped text blocks. -/
def extractAssistantMessage (r : ARecord) : Option String :=
  if shouldSkipMessage r then none
  else
    match r.message with
    | none => none
    | some m =>
      if m.role != some "assistant" then none
      else
        match m.content with
        | some (.blocks bs) =>
          let texts := extractTextBlocks bs
          if texts.isEmpty then none
          else some (strTrim (strJoinNl texts))
        | _ => none

/-- One retained conversation turn of format A. -/
structure ATurn where
  role : String
  text : String
  timestamp : Option String
deriving DecidableEq

/-- The per-line loop state of `convert_jsonl`: retained turns, metadata
captured from the first record, and the first retained user message. -/
structure AAcc where
  messages : List ATurn
  firstTimestamp : Option String
  firstUser : Option String
  sessionId : Option String
  cwd : Option String
deriving DecidableEq

/-- One iteration of the `convert_jsonl` read loop over a parsed record:
capture metadata while `first_timestamp` is still `None`, then append a
user or assistant turn if one is extracted (Python truthiness: an empty
extracted string is not appended). -/
def stepA (acc0 : AAcc) (r : ARecord) : AAcc :=
  let acc := if acc0.firstTimestamp.isNone then
      { acc0 with firstTimestamp := r.timestamp, sessionId := r.sessionId,
                  cwd := r.cwd }
    else acc0
  let userText := (extractUserMessage r).getD ""
  if userText ≠ "" then
    { acc with
      firstUser := if acc.firstUser.isNone then some userText else acc.firstUser,
      messages := acc.messages ++ [⟨"user", userText, r.timestamp⟩] }
  else
    let asstText := (extractAssistantMessage r).getD ""
    if asstText ≠ "" then
      { acc with messages := acc.messages ++ [⟨"assistant", asstText, r.timestamp⟩] }
    else acc

/-- The whole read loop of `convert_jsonl` over the successfully parsed
records of the file (blank and malformed lines are skipped by the source
before reaching any of the modelled logic). -/
def extractA (records : List ARecord) : AAcc :=
  records.foldl stepA ⟨[], none, none, none, none⟩

/-- Title/summary selection `_get_summary`: a truthy externally supplied
summary wins; else the first user message truncated to 60 characters with
newlines flattened and an ellipsis on truncation; else a fixed title. -/
def summaryFallback (firstUser : Option String) : String :=
  match firstUser with
  | some fu =>
    String.mk ((fu.data.take 60).map fun c => if c = '\n' then ' ' else c)
      ++ (if 60 < fu.length then "..." else "")
  | none => "Untitled Session"

def getSummaryA (metaSummary : Option String) (firstUser : Option String) : String :=
  match metaSummary with
  | some s => if s ≠ "" then s else summaryFallback firstUser
  | none => summaryFallback firstUser

def speakerA (role : String) : String := if role = "user" then "User" else "Assistant"

/-- The three output lines of one format-A turn: the `[HH:MM] Speaker:`
tag, the normalized text, and a blank separator. -/
def turnBlockA (m : ATurn) : List String :=
  let ts := match m.timestamp with
    | some t => if t ≠ "" then fmtHMA t else "??:??"
    | none => "??:??"
  ["[" ++ ts ++ "] " ++ speakerA m.role ++ ":", collapseText m.text, ""]

/-- `convert_jsonl` on one session file.  `writeOk` models whether the
final file write succeeds; `pathStr` is the printed source path; and
`metaSummary` is the summary string found for this file in
`sessions-index.json` (or `none`).  Returns the conversion result and the
updated `processed_sessions` set. -/
def convertA (writeOk : Bool) (pathStr : String) (metaSummary : Option String)
    (records : List ARecord) (processed : List String) :
    ConvResult × List String :=
  let acc := extractA records
  if acc.messages.isEmpty then
    (⟨false, none, [.warnNoMessages pathStr]⟩, processed)
  else
    let sid := acc.sessionId.getD ""
    if sid ≠ "" ∧ sid ∈ processed then
      (⟨false, none, [.warnDuplicate sid]⟩, processed)
    else
      let processed' := if sid ≠ "" then processed ++ [sid] else processed
      let dateStr := match acc.firstTimestamp with
        | some ts => if ts ≠ "" then dateA ts else "unknown-date"
        | none => "unknown-date"
      let timeStr := colonToDash (match acc.firstTimestamp with
        | some ts => if ts ≠ "" then fmtHMA ts else "00-00"
        | none => "00-00")
      let summary := getSummaryA metaSummary acc.firstUser
      let slug := slugify summary
      let filename := "session_" ++ dateStr ++ "_" ++ timeStr ++ "_" ++ slug ++ ".txt"
      let headerLines := ["=== Session: " ++ summary ++ " ==="]
        ++ ["Date: " ++ dateStr ++ " " ++ dashToColon timeStr]
        ++ (match acc.cwd with
            | some p => if p ≠ "" then ["Project: " ++ p] else []
            | none => [])
        ++ (if sid ≠ "" then ["Session ID: " ++ sid] else [])
        ++ ["Messages: " ++ natStr acc.messages.length, "===\n"]
      let body := strJoinNl (headerLines ++ (acc.messages.map turnBlockA).flatten)
      if writeOk then
        (⟨true, some (filename, body), [.okWrite filename acc.messages.length]⟩,
          processed')
      else
        (⟨false, none, [.errWrite filename]⟩, processed')

/-- `convert_directory` of convert_export.py: convert each file in order,
counting successes; a failed session never stops the run. -/
def runA : List (Bool × String × Option String × List ARecord) → List String →
    Nat × List (String × String) × List LogEvent × List String
  | [], processed => (0, [], [], processed)
  | (wk, path, meta, recs) :: rest, processed =>
    let (r, processed') := convertA wk path meta recs processed
    let (cnt, outs, logs, pf) := runA rest processed'
    ((if r.ok then 1 else 0) + cnt,
      (match r.output with | some o => [o] | none => []) ++ outs,
      r.logs ++ logs, pf)

/-! ### C6 and C7: format-A user-message drop rules -/

/-- C6: a format-A record whose message has role `user` and raw string
content containing a command-tag marker (`<command-` or `<local-command-`)
is dropped entirely: neither extractor returns text and the read loop
retains no turn from it. -/
theorem c6_command_dropped (r : ARecord) (m : AMessage) (s : String)
    (hm : r.message = some m) (hrole : m.role = some "user")
    (hc : m.content = some (.str s)) (hcmd : isCommandMessage s = true) :
    extractUserMessage r = none ∧ extractAssistantMessage r = none
    ∧ ∀ acc : AAcc, (stepA acc r).messages = acc.messages
        ∧ (stepA acc r).firstUser = acc.firstUser := by
  have hu : extractUserMessage r = none := by
    unfold extractUserMessage
    by_cases hs : shouldSkipMessage r = true
    · rw [if_pos hs]
    · rw [if_neg hs, hm]
      simp [hrole, hc, hcmd]
  have ha : extractAssistantMessage r = none := by
    unfold extractAssistantMessage
    by_cases hs : shouldSkipMessage r = true
    · rw [if_pos hs]
    · rw [if_neg hs, hm]
      simp [hrole]
  refine ⟨hu, ha, fun acc => ?_⟩
  unfold stepA
  rw [hu, ha]
  by_cases hft : acc.firstTimestamp.isNone <;> simp [hft]

/-- The example message of the claim: string content
`"please run <command-name>build</command-name>"`. -/
def c6r : ARecord :=
  ⟨some "user",
   some ⟨some "user", some (.str "please run <command-name>build</command-name>")⟩,
   false, some "2024-01-01T00:00:00Z", some "s", none⟩

/-- The empty loop accumulator. -/
def aEmptyAcc : AAcc := ⟨[], none, none, none, none⟩

/-- Witness for C6 at the claim's example message. -/
theorem c6_command_dropped_witness :
    extractUserMessage c6r = none ∧ extractAssistantMessage c6r = none
    ∧ (stepA aEmptyAcc c6r).messages = aEmptyAcc.messages
    ∧ (stepA aEmptyAcc c6r).firstUser = aEmptyAcc.firstUser := by
  have h := c6_command_dropped c6r
    ⟨some "user", some (.str "please run <command-name>build</command-name>")⟩
    "please run <command-name>build</command-name>" rfl rfl rfl (by decide)
  exact ⟨h.1, h.2.1, (h.2.2 aEmptyAcc).1, (h.2.2 aEmptyAcc).2⟩

/-- C7: a format-A record whose message has role `user` and whose content
is a block list in which every block is a `tool_result` object (hence none
is a `text` block) is dropped entirely and retains no turn.  The empty
block list is also dropped (it yields no text blocks). -/
theorem c7_toolresult_only_dropped (r : ARecord) (m : AMessage) (bs : List ABlock)
    (hm : r.message = some m) (hrole : m.role = some "user")
    (hc : m.content = some (.blocks bs))
    (hall : ∀ b ∈ bs, ∃ tf, b = .dict (some "tool_result") tf) :
    extractUserMessage r = none
    ∧ ∀ acc : AAcc, (stepA acc r).messages = acc.messages := by
  have htext : (bs.any fun b =>
      match b with
      | .dict (some t) _ => t == "text"
      | _ => false) = false := by
    rw [List.any_eq_false]
    intro b hb
    obtain ⟨tf, rfl⟩ := hall b hb
    simp
  have htexts : extractTextBlocks bs = [] := by
    unfold extractTextBlocks
    rw [List.filterMap_eq_nil_iff]
    intro b hb
    obtain ⟨tf, rfl⟩ := hall b hb
    cases tf with
    | none => rfl
    | some tx => simp
  have hu : extractUserMessage r = none := by
    unfold extractUserMessage
    by_cases hs : shouldSkipMessage r = true
    · rw [if_pos hs]
    · rw [if_neg hs, hm]
      by_cases htr : (bs.any fun b =>
          match b with
          | .dict (some t) _ => t == "tool_result"
          | _ => false) = true
      · simp [hrole, hc, htr, htext]
      · simp only [Bool.not_eq_true] at htr
        simp [hrole, hc, htr, htext, htexts]
  have ha : extractAssistantMessage r = none := by
    unfold extractAssistantMessage
    by_cases hs : shouldSkipMessage r = true
    · rw [if_pos hs]
    · rw [if_neg hs, hm]
      simp [hrole]
  refine ⟨hu, fun acc => ?_⟩
  unfold stepA
  rw [hu, ha]
  by_cases hft : acc.firstTimestamp.isNone <;> simp [hft]

/-- The claim's example: a user message consisting solely of one
`tool_result` block and no `text` block. -/
def c7r : ARecord :=
  ⟨some "user",
   some ⟨some "user", some (.blocks [.dict (some "tool_result") none])⟩,
   false, some "2024-01-01T00:00:00Z", some "s", none⟩

/-- Witness for C7 at a one-tool-result-block message. -/
theorem c7_toolresult_only_dropped_witness :
    extractUserMessage c7r = none
    ∧ (stepA aEmptyAcc c7r).messages = aEmptyAcc.messages := by
  have h := c7_toolresult_only_dropped c7r
    ⟨some "user", some (.blocks [.dict (some "tool_result") none])⟩
    [.dict (some "tool_result") none] rfl rfl rfl
    (by intro b hb; simp at hb; exact ⟨none, hb⟩)
  exact ⟨h.1, h.2 aEmptyAcc⟩

/-! ### Format B (convert_opencode.py, OpenCode storage) -/

/-- ASCII lowering (Python `str.lower()` on the identifiers at hand). -/
def strLower (s : String) : String := String.mk (s.data.map Char.toLower)

/-- The last hyphen-delimited segment: `agent_str.split("-")[-1]`
(`split` always returns at least one piece). -/
def lastSeg (s : String) : String := String.mk ((splitCh '-' s.data).getLastD [])

/-- The `agent_case_map` dict: insertion-ordered key/value pairs. -/
abbrev AgentMap := List (String × String)

def lookupA : AgentMap → String → Option String
  | [], _ => none
  | (k, v) :: rest, key => if k = key then some v else lookupA rest key

/-- `_normalize_agent_name`: empty identifiers pass through; otherwise the
last hyphen-delimited segment is the base name, and the first-seen casing
of each lowercased base name is recorded and always returned. -/
def normalizeAgentName (m : AgentMap) (agentStr : String) : String × AgentMap :=
  if agentStr = "" then ("", m)
  else
    let base := lastSeg agentStr
    let low := strLower base
    match lookupA m low with
    | some v => (v, m)
    | none => (base, m ++ [(low, base)])

/-- One part file, with the fields the converter reads. `timeStart` is
`part["time"]["start"]` when `time` is an object with that key, else
`none`; `synthetic` is the truthiness of the `synthetic` field. -/
structure BPart where
  type' : Option String
  synthetic : Bool
  text : Option String
  timeStart : Option Int
deriving DecidableEq

/-- One message file; `timeCreated` is `message["time"]["created"]` when
present under an object `time` field, else `none`. -/
structure BMessage where
  id : Option String
  role : Option String
  agent : Option String
  timeCreated : Option Int
deriving DecidableEq

/-- One session file of `session/global`. -/
structure BSession where
  id : Option String
  parentID : Option String
  title : Option String
deriving DecidableEq

/-- The storage tree: `message/<sessionId>/*.json` and
`part/<messageId>/*.json`, each directory listed in sorted order with each
file's load result (`none` = unparsable or not an object). A directory
lookup returning `none` means the directory does not exist. -/
structure BStorage where
  message : String → Option (List (Option BMessage))
  part : String → Option (List (Option BPart))

/-- The part types excluded by `_should_skip_part`'s defensive check. -/
def excludedPartTypes : List String :=
  ["reasoning", "tool", "step-start", "step-finish", "file", "compaction", "subtask"]

/-- `_should_skip_part`: only non-synthetic `text` parts are kept. -/
def shouldSkipPart (p : BPart) : Bool :=
  if p.type' != some "text" then true
  else if p.synthetic then true
  else if (match p.type' with
           | some t => excludedPartTypes.contains t
           | none => false) then true
  else false

/-- `_extract_part_text`: `part.get("text", "").strip()`, dropped when
empty or when the part is skipped. -/
def extractPartText (p : BPart) : Option String :=
  if shouldSkipPart p then none
  else
    let t := strTrim ((p.text).getD "")
    if t = "" then none else some t

/-- `_get_part_timestamp`: the part's truthy `time.start`, else the owning
message's `time.created`. -/
def partTimestamp (p : BPart) (messageTimeMs : Int) : Int :=
  match p.timeStart with
  | some s => if s ≠ 0 then s else messageTimeMs
  | none => messageTimeMs

/-- One retained format-B turn. -/
structure BTurn where
  role : Option String
  text : String
  ms : Int
  agent : String
deriving DecidableEq

/-- One iteration of the message loop of `convert_session`: skip unloadable
messages and messages without a truthy `time.created` (with all their
parts); otherwise record the first timestamp, and append one turn per
retained part of the message. -/
def collectBStep (storage : BStorage) (st : List BTurn × Option Int)
    (entry : Option BMessage) : List BTurn × Option Int :=
  match entry with
  | none => st
  | some m =>
    match m.timeCreated with
    | none => st
    | some ms =>
      if ms = 0 then st
      else
        let firstTs := match st.2 with
          | none => some ms
          | some t => some t
        let mid := (m.id).getD ""
        if mid = "" then (st.1, firstTs)
        else
          match storage.part mid with
          | none => (st.1, firstTs)
          | some partEntries =>
            (st.1 ++ partEntries.filterMap (fun pe =>
              match pe with
              | none => none
              | some p =>
                match extractPartText p with
                | none => none
                | some tx =>
                  some ⟨m.role, tx, partTimestamp p ms, (m.agent).getD ""⟩),
             firstTs)

/-- The whole message loop over the sorted message-file load results. -/
def collectB (storage : BStorage) (entries : List (Option BMessage)) :
    List BTurn × Option Int :=
  entries.foldl (collectBStep storage) ([], none)

/-- Stable insertion by `ms`: the new element goes before the first
element whose key is not smaller. -/
def insertByMs (x : BTurn) : List BTurn → List BTurn
  | [] => [x]
  | y :: ys => if y.ms < x.ms then y :: insertByMs x ys else x :: y :: ys

/-- `messages.sort(key=lambda m: m["timestamp_ms"])`: a stable sort by
timestamp; any two stable sorts by the same key agree, so this insertion
sort computes exactly Python's result. -/
def sortByMs : List BTurn → List BTurn
  | [] => []
  | x :: xs => insertByMs x (sortByMs xs)

/-- Howard Hinnant's civil-from-days algorithm (days since 1970-01-01,
proleptic Gregorian; the arithmetic of `datetime.fromtimestamp` in UTC). -/
def civilFromDays (z0 : Nat) : Nat × Nat × Nat :=
  let z := z0 + 719468
  let era := z / 146097
  let doe := z % 146097
  let yoe := (doe - doe / 1460 + doe / 36524 - doe / 146096) / 365
  let y := yoe + era * 400
  let doy := doe - (365 * yoe + yoe / 4 - yoe / 100)
  let mp := (5 * doy + 2) / 153
  let d := doy - (153 * mp + 2) / 5 + 1
  let m := if mp < 10 then mp + 3 else mp - 9
  (if m ≤ 2 then y + 1 else y, m, d)

/-- UTC hour and minute of a non-negative millisecond epoch. -/
def hmOfMsN (ms : Nat) : Nat × Nat :=
  let s := ms / 1000
  ((s / 3600) % 24, (s / 60) % 60)

/-- `_format_timestamp_ms` (`%H:%M`, UTC).  Modelled for the non-negative
epochs this tool stores; the float division `ms / 1000.0` is exact there. -/
def fmtHMB (ms : Int) : String :=
  let (h, mi) := hmOfMsN ms.toNat
  pad2 h ++ ":" ++ pad2 mi

/-- `_get_date_from_ms` (`%Y-%m-%d`, UTC), same modelled domain. -/
def dateB (ms : Int) : String :=
  let (y, m, d) := civilFromDays (ms.toNat / 1000 / 86400)
  pad4 y ++ "-" ++ pad2 m ++ "-" ++ pad2 d

/-- `_get_time_from_ms` (`%H-%M`, UTC), same modelled domain. -/
def timeFileB (ms : Int) : String :=
  let (h, mi) := hmOfMsN ms.toNat
  pad2 h ++ "-" ++ pad2 mi

/-- The render loop of `convert_session` over the sorted turns, threading
the agent-casing map: user turns are labeled `User`; other turns get
`Assistant (<name>)` for a non-empty normalized agent name, else
`Assistant`. -/
def renderTurnsB : List BTurn → AgentMap → List String × AgentMap
  | [], m => ([], m)
  | t :: ts, m =>
    let (speaker, m') :=
      if t.role == some "user" then ("User", m)
      else
        let (name, m2) := normalizeAgentName m t.agent
        (if name ≠ "" then "Assistant (" ++ name ++ ")" else "Assistant", m2)
    let (restLines, m'') := renderTurnsB ts m'
    (("[" ++ fmtHMB t.ms ++ "] " ++ speaker ++ ":") :: collapseText t.text
      :: "" :: restLines, m'')

/-- Python truthiness of an optional string field (`None` and `""` are
falsy). -/
def truthyStr : Option String → Bool
  | some p => p != ""
  | none => false

/-- Converter-instance state of format B: the processed-session set (which
can hold the `None` id) and the agent casing map. -/
structure BState where
  processed : List (Option String)
  agentCase : AgentMap
deriving DecidableEq

/-- `convert_session` on one session file.  Mirrors the source order:
load check, `parentID` check, duplicate check, registration, session-id
truthiness, message directory and file checks, collection, emptiness
check, sort, first-timestamp check, rendering and write. -/
def convertB (writeOk : Bool) (storage : BStorage) (sessionLoad : Option BSession)
    (st : BState) : ConvResult × BState :=
  match sessionLoad with
  | none => (⟨false, none, []⟩, st)
  | some s =>
    let sid := s.id
    if truthyStr s.parentID then
      (⟨false, none, []⟩, st)
    else if sid ∈ st.processed then
      (⟨false, none, []⟩, st)
    else
      let st1 : BState := { st with processed := st.processed ++ [sid] }
      if sid.getD "" = "" then (⟨false, none, []⟩, st1)
      else
        match storage.message (sid.getD "") with
        | none => (⟨false, none, []⟩, st1)
        | some entries =>
          if entries.isEmpty then (⟨false, none, []⟩, st1)
          else
            let (turns, firstTs) := collectB storage entries
            if turns.isEmpty then (⟨false, none, []⟩, st1)
            else
              let sorted := sortByMs turns
              match firstTs with
              | none => (⟨false, none, []⟩, st1)
              | some fts =>
                if fts = 0 then (⟨false, none, []⟩, st1)
                else
                  let dateStr := dateB fts
                  let timeStr := timeFileB fts
                  let title := s.title.getD "Untitled Session"
                  let slug := slugify title
                  let filename :=
                    "session_" ++ dateStr ++ "_" ++ timeStr ++ "_" ++ slug ++ ".txt"
                  let (turnLines, agentCase') := renderTurnsB sorted st.agentCase
                  let headerLines :=
                    ["=== Session: " ++ title ++ " (" ++ slug ++ ") ===",
                     "Date: " ++ dateStr ++ " " ++ dashToColon timeStr,
                     "Session ID: " ++ sid.getD "",
                     "Messages: " ++ natStr sorted.length,
                     "===\n"]
                  let body := strJoinNl (headerLines ++ turnLines)
                  let st2 : BState := { st1 with agentCase := agentCase' }
                  if writeOk then
                    (⟨true, some (filename, body),
                      [.okWrite filename sorted.length]⟩, st2)
                  else
                    (⟨false, none, [.errWrite filename]⟩, st2)

/-- `convert_directory` of convert_opencode.py: convert every session file
in order; failures never stop the run. -/
def runB (writeOk : Bool) (storage : BStorage) :
    List (Option BSession) → BState →
    Nat × List (String × String) × List LogEvent × BState
  | [], st => (0, [], [], st)
  | s :: rest, st =>
    let (r, st') := convertB writeOk storage s st
    let (cnt, outs, logs, stf) := runB writeOk storage rest st'
    ((if r.ok then 1 else 0) + cnt,
      (match r.output with | some o => [o] | none => []) ++ outs,
      r.logs ++ logs, stf)

/-! ### C10: part timestamps and message skipping -/

/-- C10: a retained part's timestamp is the part's truthy `time.start`
when present, else the owning message's `time.created`; a message whose
`time.created` is missing or zero is skipped with all its parts (the loop
state is unchanged). -/
theorem c10_part_timestamp :
    (∀ (p : BPart) (s ms : Int), p.timeStart = some s → s ≠ 0 →
      partTimestamp p ms = s)
    ∧ (∀ (p : BPart) (ms : Int), p.timeStart = none ∨ p.timeStart = some 0 →
      partTimestamp p ms = ms)
    ∧ (∀ (storage : BStorage) (st : List BTurn × Option Int) (m : BMessage),
      m.timeCreated = none ∨ m.timeCreated = some 0 →
      collectBStep storage st (some m) = st) := by
  refine ⟨?_, ?_, ?_⟩
  · intro p s ms hp hs
    unfold partTimestamp
    rw [hp]
    simp [hs]
  · intro p ms hp
    unfold partTimestamp
    rcases hp with hp | hp <;> simp [hp]
  · intro storage st m hm
    rcases hm with hm | hm <;> simp [collectBStep, hm]

/-- Witness for C10 on concrete parts and a zero-created message. -/
theorem c10_part_timestamp_witness :
    partTimestamp ⟨some "text", false, some "t", some 5⟩ 7 = 5
    ∧ partTimestamp ⟨some "text", false, some "t", some 0⟩ 7 = 7
    ∧ partTimestamp ⟨some "text", false, some "t", none⟩ 7 = 7
    ∧ collectBStep ⟨fun _ => none, fun _ => none⟩ ([], none)
        (some ⟨some "m", some "user", none, some 0⟩) = ([], none) := by
  refine ⟨?_, ?_, ?_, ?_⟩
  · exact c10_part_timestamp.1 ⟨some "text", false, some "t", some 5⟩ 5 7 rfl
      (by decide)
  · exact c10_part_timestamp.2.1 ⟨some "text", false, some "t", some 0⟩ 7
      (Or.inr rfl)
  · exact c10_part_timestamp.2.1 ⟨some "text", false, some "t", none⟩ 7
      (Or.inl rfl)
  · exact c10_part_timestamp.2.2 ⟨fun _ => none, fun _ => none⟩ ([], none)
      ⟨some "m", some "user", none, some 0⟩ (Or.inr rfl)

/-! ### C9: agent-name derivation and first-seen casing -/

/-- The sequence of display names produced by successive
`_normalize_agent_name` calls starting from map `m`. -/
def agentOutputs (m : AgentMap) : List String → List String
  | [] => []
  | a :: rest =>
    (normalizeAgentName m a).1 :: agentOutputs (normalizeAgentName m a).2 rest

/-- The agent-casing map after a sequence of calls. -/
def runAgentMap (m : AgentMap) : List String → AgentMap
  | [] => m
  | a :: rest => runAgentMap (normalizeAgentName m a).2 rest

/-- The display name recorded by the first non-empty identifier in `pre`
whose lowercased last segment equals `k`. -/
def seenKey (pre : List String) (k : String) : Option String :=
  match pre.filter (fun b => b != "" && strLower (lastSeg b) == k) with
  | [] => none
  | b :: _ => some (lastSeg b)

theorem agentOutputs_append (pre : List String) :
    ∀ (m : AgentMap) (post : List String),
      agentOutputs m (pre ++ post)
        = agentOutputs m pre ++ agentOutputs (runAgentMap m pre) post := by
  induction pre with
  | nil => intro m post; simp [agentOutputs, runAgentMap]
  | cons a rest ih =>
    intro m post
    simp only [List.cons_append, agentOutputs, runAgentMap]
    exact congrArg _ (ih _ post)

theorem runAgentMap_append (pre : List String) :
    ∀ (m : AgentMap) (post : List String),
      runAgentMap m (pre ++ post) = runAgentMap (runAgentMap m pre) post := by
  induction pre with
  | nil => intro m post; simp [runAgentMap]
  | cons a rest ih =>
    intro m post
    simp only [List.cons_append, runAgentMap]
    exact ih _ post

theorem lookupA_append_of_none (m : AgentMap) (k k2 : String) (v2 : String)
    (h : lookupA m k = none) :
    lookupA (m ++ [(k2, v2)]) k = if k2 = k then some v2 else none := by
  induction m with
  | nil => simp [lookupA]
  | cons p rest ih =>
    obtain ⟨pk, pv⟩ := p
    simp only [lookupA, List.cons_append] at h ⊢
    by_cases hk : pk = k
    · rw [if_pos hk] at h; cases h
    · rw [if_neg hk] at h ⊢
      exact ih h

theorem lookupA_append_of_some (m : AgentMap) (k k2 : String) (v v2 : String)
    (h : lookupA m k = some v) :
    lookupA (m ++ [(k2, v2)]) k = some v := by
  induction m with
  | nil => simp [lookupA] at h
  | cons p rest ih =>
    obtain ⟨pk, pv⟩ := p
    simp only [lookupA, List.cons_append] at h ⊢
    by_cases hk : pk = k
    · rwa [if_pos hk] at h ⊢
    · rw [if_neg hk] at h ⊢
      exact ih h

theorem seenKey_cons_skip (b : String) (rest : List String) (k : String)
    (h : (b != "" && strLower (lastSeg b) == k) = false) :
    seenKey (b :: rest) k = seenKey rest k := by
  unfold seenKey
  rw [List.filter_cons_of_neg (by simp [h])]

theorem seenKey_cons_hit (b : String) (rest : List String) (k : String)
    (h : (b != "" && strLower (lastSeg b) == k) = true) :
    seenKey (b :: rest) k = some (lastSeg b) := by
  unfold seenKey
  rw [List.filter_cons_of_pos (by simp [h])]

theorem normalizeAgentName_found (m : AgentMap) (a v : String) (ha : a ≠ "")
    (h : lookupA m (strLower (lastSeg a)) = some v) :
    normalizeAgentName m a = (v, m) := by
  unfold normalizeAgentName
  rw [if_neg ha]
  simp [h]

theorem normalizeAgentName_new (m : AgentMap) (a : String) (ha : a ≠ "")
    (h : lookupA m (strLower (lastSeg a)) = none) :
    normalizeAgentName m a
      = (lastSeg a, m ++ [(strLower (lastSeg a), lastSeg a)]) := by
  unfold normalizeAgentName
  rw [if_neg ha]
  simp [h]

/-- The key invariant: looking a key up in the map after a run equals the
original lookup, or else the first-seen display name of that key. -/
theorem runAgentMap_lookup : ∀ (pre : List String) (m : AgentMap) (k : String),
    lookupA (runAgentMap m pre) k
      = match lookupA m k with
        | some v => some v
        | none => seenKey pre k := by
  intro pre
  induction pre with
  | nil =>
    intro m k
    cases h : lookupA m k <;> simp [runAgentMap, seenKey, h]
  | cons b rest ih =>
    intro m k
    unfold runAgentMap
    rw [ih]
    by_cases hb : b = ""
    · subst hb
      rw [show (normalizeAgentName m "").2 = m from rfl]
      rw [seenKey_cons_skip _ _ _ (by simp)]
    · by_cases hk : strLower (lastSeg b) = k
      · cases hm : lookupA m (strLower (lastSeg b)) with
        | some v =>
          rw [normalizeAgentName_found m b v hb hm]
          rw [hk] at hm
          simp only [hm]
        | none =>
          rw [normalizeAgentName_new m b hb hm]
          rw [hk] at hm
          rw [hk]
          rw [lookupA_append_of_none m k k (lastSeg b) hm, if_pos rfl]
          rw [seenKey_cons_hit _ _ _ (by simp [hb, hk])]
          simp only [hm]
      · cases hm : lookupA m (strLower (lastSeg b)) with
        | some v =>
          rw [normalizeAgentName_found m b v hb hm]
          rw [seenKey_cons_skip _ _ _ (by simp [hk])]
        | none =>
          rw [normalizeAgentName_new m b hb hm]
          rw [seenKey_cons_skip _ _ _ (by simp [hk])]
          cases hmk : lookupA m k with
          | some v =>
            rw [lookupA_append_of_some m k _ v _ hmk]
          | none =>
            rw [lookupA_append_of_none m k _ _ hmk, if_neg hk]

theorem seenKey_lower (pre : List String) (k v : String)
    (h : seenKey pre k = some v) : strLower v = k := by
  unfold seenKey at h
  cases hf : pre.filter (fun b => b != "" && strLower (lastSeg b) == k) with
  | nil => rw [hf] at h; cases h
  | cons b rest =>
    rw [hf] at h
    cases h
    have hb : b ∈ pre.filter (fun b => b != "" && strLower (lastSeg b) == k) := by
      rw [hf]; simp
    have hp := List.of_mem_filter hb
    simp at hp
    exact hp.2

/-- C9: for a non-empty agent identifier `a` appearing after the call
sequence `pre`, the display name produced is the last hyphen-delimited
segment of the first identifier (in `pre ++ [a]`) whose lowercased last
segment matches `a`'s — the first-seen casing — and always agrees with
`a`'s own last segment up to case.  For an assistant turn with a non-empty
normalized name, the rendered tag line is `[HH:MM] Assistant (<name>):`. -/
theorem c9_agent_first_seen :
    (∀ (pre post : List String) (a : String), a ≠ "" →
      agentOutputs [] (pre ++ a :: post)
        = agentOutputs [] pre
          ++ (seenKey pre (strLower (lastSeg a))).getD (lastSeg a)
            :: agentOutputs (runAgentMap [] (pre ++ [a])) post
      ∧ strLower ((seenKey pre (strLower (lastSeg a))).getD (lastSeg a))
          = strLower (lastSeg a))
    ∧ (∀ (t : BTurn) (ts : List BTurn) (m : AgentMap),
      (t.role == some "user") = false →
      (normalizeAgentName m t.agent).1 ≠ "" →
      (renderTurnsB (t :: ts) m).1.take 3
        = ["[" ++ fmtHMB t.ms ++ "] "
            ++ ("Assistant (" ++ (normalizeAgentName m t.agent).1 ++ ")") ++ ":",
           collapseText t.text, ""]) := by
  constructor
  · intro pre post a ha
    have key : lookupA (runAgentMap [] pre) (strLower (lastSeg a))
        = seenKey pre (strLower (lastSeg a)) :=
      (runAgentMap_lookup pre [] (strLower (lastSeg a))).trans rfl
    have hsnd : (normalizeAgentName (runAgentMap [] pre) a).2
        = runAgentMap [] (pre ++ [a]) := by
      rw [runAgentMap_append pre [] [a]]
      rfl
    have hfst : (normalizeAgentName (runAgentMap [] pre) a).1
        = (seenKey pre (strLower (lastSeg a))).getD (lastSeg a) := by
      cases hsk : seenKey pre (strLower (lastSeg a)) with
      | some v =>
        rw [hsk] at key
        rw [normalizeAgentName_found _ a v ha key]
        rfl
      | none =>
        rw [hsk] at key
        rw [normalizeAgentName_new _ a ha key]
        rfl
    constructor
    · rw [agentOutputs_append pre [] (a :: post)]
      congr 1
      rw [show agentOutputs (runAgentMap [] pre) (a :: post)
          = (normalizeAgentName (runAgentMap [] pre) a).1
            :: agentOutputs (normalizeAgentName (runAgentMap [] pre) a).2 post
          from rfl]
      rw [hfst, hsnd]
    · cases hsk : seenKey pre (strLower (lastSeg a)) with
      | none => rfl
      | some v =>
        have hv := seenKey_lower pre _ v hsk
        simpa using hv
  · intro t ts m hrole hname
    simp [renderTurnsB, hrole, hname]

/-- Witness for C9 at the claim's example: `"Planner-Sisyphus"` then
`"PLANNER-SISYPHUS"` both display as `Sisyphus`, and an assistant turn
renders the `Assistant (Sisyphus)` tag. -/
theorem c9_agent_first_seen_witness :
    agentOutputs [] (["Planner-Sisyphus"] ++ "PLANNER-SISYPHUS" :: [])
      = agentOutputs [] ["Planner-Sisyphus"]
        ++ (seenKey ["Planner-Sisyphus"] (strLower (lastSeg "PLANNER-SISYPHUS"))).getD
            (lastSeg "PLANNER-SISYPHUS")
          :: agentOutputs (runAgentMap [] (["Planner-Sisyphus"] ++ ["PLANNER-SISYPHUS"])) []
    ∧ agentOutputs [] ["Planner-Sisyphus", "PLANNER-SISYPHUS"] = ["Sisyphus", "Sisyphus"]
    ∧ (renderTurnsB [⟨some "assistant", "x", 5, "Planner-Sisyphus"⟩] []).1.take 3
      = ["[00:00] " ++ "Assistant (Sisyphus)" ++ ":", collapseText "x", ""] := by
  refine ⟨(c9_agent_first_seen.1 ["Planner-Sisyphus"] [] "PLANNER-SISYPHUS"
    (by decide)).1, by decide, ?_⟩
  have h := c9_agent_first_seen.2 ⟨some "assistant", "x", 5, "Planner-Sisyphus"⟩ [] []
    (by decide) (by decide)
  rw [h]
  decide

/-! ### C8: sessions with zero retained turns -/

/-- C8 (amended): a session with zero retained turns is never materialized
(no output file) and the run continues with the next session; format A
reports a warning, but format B skips silently (its converter prints
nothing on the empty path, so the claim's "reported as a warning" does not
hold there — see the counterexample). -/
theorem c8_zero_turns :
    (∀ (wk : Bool) (path : String) (meta : Option String)
        (records : List ARecord) (st : List String),
      (extractA records).messages = [] →
      convertA wk path meta records st
        = (⟨false, none, [.warnNoMessages path]⟩, st))
    ∧ (∀ (wk : Bool) (storage : BStorage) (s : BSession) (st : BState)
        (sid : String) (entries : List (Option BMessage)) (ft : Option Int),
      truthyStr s.parentID = false →
      s.id ∉ st.processed →
      s.id = some sid → sid ≠ "" →
      storage.message sid = some entries →
      entries ≠ [] →
      collectB storage entries = ([], ft) →
      convertB wk storage (some s) st
        = (⟨false, none, []⟩, ⟨st.processed ++ [s.id], st.agentCase⟩))
    ∧ (∀ (wk : Bool) (path : String) (meta : Option String)
        (recs : List ARecord)
        (rest : List (Bool × String × Option String × List ARecord))
        (processed : List String) (r : ConvResult) (p' : List String),
      convertA wk path meta recs processed = (r, p') →
      runA ((wk, path, meta, recs) :: rest) processed
        = ((if r.ok then 1 else 0) + (runA rest p').1,
           (match r.output with | some o => [o] | none => []) ++ (runA rest p').2.1,
           r.logs ++ (runA rest p').2.2.1,
           (runA rest p').2.2.2))
    ∧ (∀ (wk : Bool) (storage : BStorage) (s : Option BSession)
        (rest : List (Option BSession)) (st : BState) (r : ConvResult)
        (st' : BState),
      convertB wk storage s st = (r, st') →
      runB wk storage (s :: rest) st
        = ((if r.ok then 1 else 0) + (runB wk storage rest st').1,
           (match r.output with | some o => [o] | none => [])
             ++ (runB wk storage rest st').2.1,
           r.logs ++ (runB wk storage rest st').2.2.1,
           (runB wk storage rest st').2.2.2)) := by
  refine ⟨?_, ?_, ?_, ?_⟩
  · intro wk path meta records st h
    have h1 : (extractA records).messages.isEmpty = true := by
      rw [h]; rfl
    simp [convertA, h1]
  · intro wk storage s st sid entries ft hp hmem hid hsid hstore hent hcol
    have hent' : entries.isEmpty = false := by
      cases h : entries with
      | nil => exact absurd h hent
      | cons a t => rfl
    rw [hid] at hmem
    simp [convertB, hp, hmem, hid, hsid, hstore, hent', hcol]
  · intro wk path meta recs rest processed r p' h
    simp [runA, h]
  · intro wk storage s rest st r st' h
    simp [runB, h]

/-- A format-B storage holding one message whose only part is a `tool`
part: the session has zero retained turns after filtering. -/
def c8stor : BStorage :=
  ⟨fun sid => if sid = "s8"
      then some [some ⟨some "m8", some "assistant", none, some 5⟩] else none,
   fun mid => if mid = "m8"
      then some [some ⟨some "tool", false, some "ignored", none⟩] else none⟩

def c8sess : BSession := ⟨some "s8", none, some "T"⟩

/-- Witness for C8: format A with no extractable messages warns and writes
nothing; the concrete zero-turn format-B session writes nothing. -/
theorem c8_zero_turns_witness :
    convertA true "p.jsonl" none [] []
      = (⟨false, none, [.warnNoMessages "p.jsonl"]⟩, [])
    ∧ convertB true c8stor (some c8sess) ⟨[], []⟩
      = (⟨false, none, []⟩, ⟨[some "s8"], []⟩) := by
  constructor
  · exact c8_zero_turns.1 true "p.jsonl" none [] [] rfl
  · exact c8_zero_turns.2.1 true c8stor c8sess ⟨[], []⟩ "s8"
      [some ⟨some "m8", some "assistant", none, some 5⟩] (some 5)
      (by decide) (by decide) rfl (by decide) (by decide) (by decide) (by decide)

/-- Counterexample for the "reported as a warning" half of C8: the
concrete zero-turn format-B session produces no output file and the
converter emits no console event at all — it is not reported. -/
theorem c8_counterexample :
    (convertB true c8stor (some c8sess) ⟨[], []⟩).1.output = none
    ∧ (convertB true c8stor (some c8sess) ⟨[], []⟩).1.logs = [] := by
  decide

/-! ### C2: session deduplication -/

/-- C2 (amended): a later occurrence of a registered identifier is skipped
with no new output and the state unchanged; format A reports a warning,
format B reports nothing.  Registration does not require success: format A
registers the identifier after extraction but before the write, so a
failed write still blocks later occurrences; format B registers it before
reading any messages, so any non-duplicate non-child session blocks later
occurrences of its identifier even when it produces no output. -/
theorem c2_dedup :
    (∀ (wk : Bool) (path : String) (meta : Option String)
        (records : List ARecord) (st : List String) (sid : String),
      (extractA records).messages ≠ [] →
      (extractA records).sessionId = some sid →
      sid ≠ "" → sid ∈ st →
      convertA wk path meta records st
        = (⟨false, none, [.warnDuplicate sid]⟩, st))
    ∧ (∀ (wk : Bool) (storage : BStorage) (s : BSession) (st : BState),
      s.id ∈ st.processed →
      convertB wk storage (some s) st = (⟨false, none, []⟩, st))
    ∧ (∀ (path : String) (meta : Option String) (records : List ARecord)
        (st : List String) (sid : String),
      (extractA records).messages ≠ [] →
      (extractA records).sessionId = some sid →
      sid ≠ "" → sid ∉ st →
      (convertA false path meta records st).1.ok = false
      ∧ (convertA false path meta records st).1.output = none
      ∧ (convertA false path meta records st).2 = st ++ [sid])
    ∧ (∀ (wk : Bool) (storage : BStorage) (s : BSession) (st : BState),
      truthyStr s.parentID = false →
      s.id ∉ st.processed →
      (convertB wk storage (some s) st).2.processed
        = st.processed ++ [s.id]) := by
  refine ⟨?_, ?_, ?_, ?_⟩
  · intro wk path meta records st sid hmsg hsid hne hmem
    have h1 : (extractA records).messages.isEmpty = false := by
      cases h : (extractA records).messages with
      | nil => exact absurd h hmsg
      | cons a t => rfl
    simp [convertA, h1, hsid, hne, hmem]
  · intro wk storage s st hmem
    by_cases hp : truthyStr s.parentID = true
    · simp [convertB, hp]
    · simp only [Bool.not_eq_true] at hp
      simp [convertB, hp, hmem]
  · intro path meta records st sid hmsg hsid hne hmem
    have h1 : (extractA records).messages.isEmpty = false := by
      cases h : (extractA records).messages with
      | nil => exact absurd h hmsg
      | cons a t => rfl
    refine ⟨?_, ?_, ?_⟩ <;> simp [convertA, h1, hsid, hne, hmem]
  · intro wk storage s st hp hmem
    simp only [convertB, hp, Bool.false_eq_true, if_false]
    rw [if_neg hmem]
    split
    · rfl
    · split
      · rfl
      · split
        · rfl
        · split
          · rfl
          · split
            · rfl
            · split
              · rfl
              · split <;> rfl

/-- A format-A record with one user turn and session id `s1`. -/
def c2r1 : ARecord :=
  ⟨some "user", some ⟨some "user", some (.str "hello")⟩, false,
   some "2024-01-01T10:05:00Z", some "s1", none⟩

def c2recs : List ARecord := [c2r1]

/-- A format-B storage with no message directories at all. -/
def c2storB : BStorage := ⟨fun _ => none, fun _ => none⟩

def c2sessB : BSession := ⟨some "sb", none, some "T"⟩

/-- Witness for C2: a duplicate id is skipped (with a warning in format A,
silently in format B), a format-A write failure still registers the id,
and a failed format-B session still registers the id. -/
theorem c2_dedup_witness :
    convertA true "f.jsonl" none c2recs ["s1"]
      = (⟨false, none, [.warnDuplicate "s1"]⟩, ["s1"])
    ∧ convertB true c2storB (some c2sessB) ⟨[some "sb"], []⟩
      = (⟨false, none, []⟩, ⟨[some "sb"], []⟩)
    ∧ (convertA false "f.jsonl" none c2recs []).1.ok = false
    ∧ (convertA false "f.jsonl" none c2recs []).1.output = none
    ∧ (convertA false "f.jsonl" none c2recs []).2 = [] ++ ["s1"]
    ∧ (convertB true c2storB (some c2sessB) ⟨[], []⟩).2.processed
        = [] ++ [some "sb"] := by
  have hA := c2_dedup.1 true "f.jsonl" none c2recs ["s1"] "s1"
    (by decide) (by decide) (by decide) (by decide)
  have hB := c2_dedup.2.1 true c2storB c2sessB ⟨[some "sb"], []⟩ (by decide)
  have hA2 := c2_dedup.2.2.1 "f.jsonl" none c2recs [] "s1"
    (by decide) (by decide) (by decide) (by decide)
  have hB2 := c2_dedup.2.2.2 true c2storB c2sessB ⟨[], []⟩ (by decide) (by decide)
  exact ⟨hA, hB, hA2.1, hA2.2.1, hA2.2.2, hB2⟩

/-- Counterexample for C2 as stated: in format A a session whose write
fails (producing no output) still blocks a later session with the same
identifier, which would otherwise convert successfully; in format B a
session that fails with no message directory registers its id and the
repeat is skipped without any warning. -/
theorem c2_counterexample :
    (convertA false "f.jsonl" none c2recs []).1.ok = false
    ∧ (convertA false "f.jsonl" none c2recs []).1.output = none
    ∧ (convertA false "f.jsonl" none c2recs []).2 = ["s1"]
    ∧ (convertA true "f.jsonl" none c2recs
        (convertA false "f.jsonl" none c2recs []).2).1
      = ⟨false, none, [.warnDuplicate "s1"]⟩
    ∧ (convertA true "f.jsonl" none c2recs []).1.ok = true
    ∧ (convertB true c2storB (some c2sessB) ⟨[], []⟩).1 = ⟨false, none, []⟩
    ∧ (convertB true c2storB (some c2sessB) ⟨[], []⟩).2.processed = [some "sb"]
    ∧ (convertB true c2storB (some c2sessB)
        (convertB true c2storB (some c2sessB) ⟨[], []⟩).2).1
      = ⟨false, none, []⟩ := by
  decide

/-! ### C3: rendered document body -/

/-- C3 (amended): a successfully converted session renders as a header
block followed by one `[HH:MM] <Speaker>:` / normalized-text / blank-line
block per turn.  The format-A header opens with
`=== Session: <title> ===` and contains the project-path line only when a
working directory was captured and the session-id line only when a truthy
id was captured; the format-B header opens with
`=== Session: <title> (<slug>) ===` (the slug in parentheses, deviating
from the claimed `=== Session: <title> ===`) and always carries the
session-id line. -/
theorem c3_render_formats :
    (∀ (path : String) (meta : Option String) (records : List ARecord)
        (st : List String) (dateStr timeStr summary : String),
      (extractA records).messages ≠ [] →
      ¬((extractA records).sessionId.getD "" ≠ ""
          ∧ (extractA records).sessionId.getD "" ∈ st) →
      dateStr = (match (extractA records).firstTimestamp with
                 | some ts => if ts ≠ "" then dateA ts else "unknown-date"
                 | none => "unknown-date") →
      timeStr = colonToDash (match (extractA records).firstTimestamp with
                 | some ts => if ts ≠ "" then fmtHMA ts else "00-00"
                 | none => "00-00") →
      summary = getSummaryA meta (extractA records).firstUser →
      (convertA true path meta records st).1.output = some
        ("session_" ++ dateStr ++ "_" ++ timeStr ++ "_"
           ++ slugify summary ++ ".txt",
         strJoinNl (["=== Session: " ++ summary ++ " ==="]
           ++ ["Date: " ++ dateStr ++ " " ++ dashToColon timeStr]
           ++ (match (extractA records).cwd with
               | some p => if p ≠ "" then ["Project: " ++ p] else []
               | none => [])
           ++ (if (extractA records).sessionId.getD "" ≠ ""
               then ["Session ID: " ++ (extractA records).sessionId.getD ""]
               else [])
           ++ ["Messages: " ++ natStr (extractA records).messages.length,
               "===\n"]
           ++ ((extractA records).messages.map turnBlockA).flatten)))
    ∧ (∀ (t : ATurn) (ts : String),
        t.timestamp = some ts → ts ≠ "" →
        turnBlockA t = ["[" ++ fmtHMA ts ++ "] " ++ speakerA t.role ++ ":",
          collapseText t.text, ""])
    ∧ (∀ (storage : BStorage) (s : BSession) (st : BState) (sid : String)
        (entries : List (Option BMessage)) (turns : List BTurn) (fts : Int),
      truthyStr s.parentID = false →
      s.id ∉ st.processed →
      s.id = some sid → sid ≠ "" →
      storage.message sid = some entries →
      entries ≠ [] →
      collectB storage entries = (turns, some fts) →
      turns ≠ [] → fts ≠ 0 →
      (convertB true storage (some s) st).1.output = some
        ("session_" ++ dateB fts ++ "_" ++ timeFileB fts ++ "_"
           ++ slugify (s.title.getD "Untitled Session") ++ ".txt",
         strJoinNl (["=== Session: " ++ s.title.getD "Untitled Session"
             ++ " (" ++ slugify (s.title.getD "Untitled Session") ++ ") ===",
           "Date: " ++ dateB fts ++ " " ++ dashToColon (timeFileB fts),
           "Session ID: " ++ sid,
           "Messages: " ++ natStr (sortByMs turns).length,
           "===\n"]
           ++ (renderTurnsB (sortByMs turns) st.agentCase).1))) := by
  refine ⟨?_, ?_, ?_⟩
  · intro path meta records st dateStr timeStr summary hmsg hdup hd ht hs
    subst hd ht hs
    have h1 : (extractA records).messages.isEmpty = false := by
      cases h : (extractA records).messages with
      | nil => exact absurd h hmsg
      | cons a t => rfl
    simp [convertA, h1, hdup]
  · intro t ts hts hne
    unfold turnBlockA
    rw [hts]
    simp [hne]
  · intro storage s st sid entries turns fts hp hmem hid hsid hstore hent hcol
      hturns hfts
    have hent' : entries.isEmpty = false := by
      cases h : entries with
      | nil => exact absurd h hent
      | cons a t => rfl
    have hturns' : turns.isEmpty = false := by
      cases h : turns with
      | nil => exact absurd h hturns
      | cons a t => rfl
    rw [hid] at hmem
    simp [convertB, hp, hmem, hid, hsid, hstore, hent', hcol, hturns', hfts]

/-- A one-user-record format-A session with a project path. -/
def c3rA : ARecord :=
  ⟨some "user", some ⟨some "user", some (.str "hello")⟩, false,
   some "2024-01-01T10:05:00Z", some "s3", some "/w"⟩

/-- The format-B session of the claim's end-to-end example: title `Demo`,
one user message, one text part. -/
def c3stor : BStorage :=
  ⟨fun sid => if sid = "s2"
      then some [some ⟨some "m1", some "user", none, some 1704103500000⟩]
      else none,
   fun mid => if mid = "m1"
      then some [some ⟨some "text", false, some "hey", some 1704103510000⟩]
      else none⟩

def c3sess : BSession := ⟨some "s2", none, some "Demo"⟩

/-- Witness for C3 on concrete sessions of both formats, with the bodies
spelled out. -/
theorem c3_render_formats_witness :
    (convertA true "f.jsonl" none [c3rA] []).1.output
      = some ("session_2024-01-01_10-05_hello.txt",
          "=== Session: hello ===\nDate: 2024-01-01 10:05\nProject: /w\nSession ID: s3\nMessages: 1\n===\n\n[10:05] User:\nhello\n")
    ∧ turnBlockA ⟨"user", "hello", some "2024-01-01T10:05:00Z"⟩
      = ["[" ++ fmtHMA "2024-01-01T10:05:00Z" ++ "] "
          ++ speakerA "user" ++ ":", collapseText "hello", ""]
    ∧ (convertB true c3stor (some c3sess) ⟨[], []⟩).1.output
      = some ("session_2024-01-01_10-05_demo.txt",
          "=== Session: Demo (demo) ===\nDate: 2024-01-01 10:05\nSession ID: s2\nMessages: 1\n===\n\n[10:05] User:\nhey\n") := by
  refine ⟨?_, ?_, ?_⟩
  · exact (c3_render_formats.1 "f.jsonl" none [c3rA] []
      "2024-01-01" "10-05" "hello"
      (by decide) (by decide) (by decide) (by decide) (by decide)).trans (by decide)
  · exact c3_render_formats.2.1 ⟨"user", "hello", some "2024-01-01T10:05:00Z"⟩
      "2024-01-01T10:05:00Z" rfl (by decide)
  · exact (c3_render_formats.2.2 c3stor c3sess ⟨[], []⟩ "s2"
      [some ⟨some "m1", some "user", none, some 1704103500000⟩]
      [⟨some "user", "hey", 1704103510000, ""⟩] 1704103500000
      (by decide) (by decide) rfl (by decide) (by decide) (by decide)
      (by decide) (by decide) (by decide)).trans (by decide)

/-- Counterexample for C3 as stated: the format-B body does not begin with
`=== Session: Demo ===` — its first line is
`=== Session: Demo (demo) ===`, the slug being appended in parentheses. -/
theorem c3_counterexample :
    ((convertB true c3stor (some c3sess) ⟨[], []⟩).1.output.map
        (fun o => (splitNl o.2.data).head?))
      = some (some "=== Session: Demo (demo) ===".data)
    ∧ ((convertB true c3stor (some c3sess) ⟨[], []⟩).1.output.map
        (fun o => (splitNl o.2.data).head?))
      ≠ some (some "=== Session: Demo ===".data) := by
  decide
